import Mathlib

/-
Shallow embedding, in Lean 4, of the core of the wooting-analog-midi
repository (crate wooting-analog-midi-core): the per-key analog-to-MIDI
state machine `KeyState` and the orchestration `MidiService`
(src/wooting-analog-midi-core/src/lib.rs), together with the MIDI byte
encoding of `NoteSink for MidiOutputConnection`
(src/wooting-analog-midi-core/src/note.rs) and the configuration data
model (src/wooting-analog-midi-core/src/config.rs).

Modelling conventions:
- `f32` depth/velocity values are modelled as rationals (ℚ);
- `Instant::now()` is modelled by an explicit `now : ℚ` timestamp passed
  in per tick; `prev_time.elapsed()` becomes `now - prev_time`;
- a `NoteSink` is modelled by the predicate `sinkOk : MidiMsg → Bool`
  telling which sends succeed; a method on `&mut self` returning
  `Result<()>` becomes a function returning
  a result carrying the new state, the successfully sent messages in
  order and a success flag, where on failure the state reflects exactly
  the mutations the Rust code performed before the failing `?`;
- the note-on branch of `update_value` logs via `info!` with an argument
  `self.lower_press.unwrap().0.elapsed()` (lib.rs lines 82-88); the
  repository runs `env_logger` at info level (main.rs), so the macro
  evaluates its arguments and the unwrap panics when no anchor exists.
  That panic is modelled by an explicit `crashed` flag in the results;
- `FxHashMap` is modelled as an association list.
-/

namespace WootingAnalogMidi

/-- A MIDI channel-voice request handed to the `NoteSink` trait
(note.rs): the three trait methods with their arguments. -/
inductive MidiMsg where
  | noteOn (note : Nat) (velocity : ℚ) (channel : Nat)
  | noteOff (note : Nat) (velocity : ℚ) (channel : Nat)
  | polyAftertouch (note : Nat) (pressure : ℚ) (channel : Nat)
deriving DecidableEq

/-- The note number (second data byte) carried by a message. -/
def MidiMsg.note : MidiMsg → Nat
  | .noteOn n _ _ => n
  | .noteOff n _ _ => n
  | .polyAftertouch n _ _ => n

/-- `const NOTE_ON_MSG: u8 = 0x90` (note.rs). -/
def NOTE_ON_MSG : Nat := 0x90

/-- `const NOTE_OFF_MSG: u8 = 0x80` (note.rs). -/
def NOTE_OFF_MSG : Nat := 0x80

/-- `const POLY_AFTERTOUCH_MSG: u8 = 0xA0` (note.rs). -/
def POLY_AFTERTOUCH_MSG : Nat := 0xA0

/-- `const MIDI_NOTE_MAX: NoteID = 108` (note.rs). -/
def MIDI_NOTE_MAX : Nat := 108

/-- `const MIDI_NOTE_MIN: NoteID = 21` (note.rs). -/
def MIDI_NOTE_MIN : Nat := 21

/-- `f32::min` on the rational model (no NaN): the smaller argument. -/
def rmin (a b : ℚ) : ℚ := if a ≤ b then a else b

/-- `f32::abs` on the rational model. -/
def rabs (q : ℚ) : ℚ := if q < 0 then -q else q

/-- `f32::clamp(lo, hi)` on the rational model: `lo` when below, `hi`
when above, the value itself otherwise. -/
def rclamp (x lo hi : ℚ) : ℚ := if x < lo then lo else if hi < x then hi else x

/-- Rust's saturating float-to-`u8` `as` cast: round toward zero, then
saturate into `[0, 255]`.  For the nonnegative values produced by the
encoders this is the floor. -/
def f32_as_u8 (q : ℚ) : Nat :=
  (if Rat.floor q ≤ 255 then Rat.floor q else 255).toNat

/-- The 3-byte encoding `NoteSink for MidiOutputConnection` transmits
(note.rs lines 22-48): status byte OR channel, then the note number,
then `(f32::min(value, 1.0) * 127.0) as u8`. -/
def MidiMsg.bytes : MidiMsg → List Nat
  | .noteOn n v c => [Nat.lor NOTE_ON_MSG c, n, f32_as_u8 (rmin v 1 * 127)]
  | .noteOff n v c => [Nat.lor NOTE_OFF_MSG c, n, f32_as_u8 (rmin v 1 * 127)]
  | .polyAftertouch n p c => [Nat.lor POLY_AFTERTOUCH_MSG c, n, f32_as_u8 (rmin p 1 * 127)]

/-- Which sends succeed: the model of a connected `NoteSink`. -/
abbrev SinkOk := MidiMsg → Bool

/-- `const AFTERTOUCH: bool = true` (lib.rs line 17). -/
def AFTERTOUCH : Bool := true

/-- `KeyConfig` (config.rs): per-key tunables. -/
structure KeyConfig where
  note_id : Nat
  channel : Nat
  actuation_point : ℚ
  threshold : ℚ
  velocity_scale : ℚ
  aftertouch : Bool
  shift_amount : Int
deriving DecidableEq

/-- `KeyState` (lib.rs lines 28-35): per-key runtime state.  The anchor
`lower_press` stores a (timestamp, depth) pair. -/
structure KeyState where
  pressed : Bool
  shifted_amount : Int
  velocity : ℚ
  current_value : ℚ
  lower_press : Option (ℚ × ℚ)
deriving DecidableEq

/-- `KeyState::new` (lib.rs lines 38-46). -/
def KeyState.new : KeyState :=
  { pressed := false
    shifted_amount := 0
    velocity := 0
    current_value := 0
    lower_press := none }

/-- Steps 1-2 of `KeyState::update_value` (lib.rs lines 55-73): anchor
(re)establishment and velocity estimation.  `.clamp(0.0, 1.0)` is
`min (max x 0) 1`. -/
def KeyState.anchor_velocity (s : KeyState) (cfg : KeyConfig) (new_value now : ℚ) :
    KeyState :=
  if (s.current_value ≤ cfg.actuation_point ∧ cfg.actuation_point < new_value ∧
      new_value < cfg.threshold) ∨ new_value ≤ cfg.actuation_point then
    { s with lower_press := some (now, new_value), velocity := 0 }
  else
    match s.lower_press with
    | some (prev_time, prev_depth) =>
      let duration := now - prev_time
      let vel :=
        if new_value ≠ prev_depth then
          rclamp ((new_value - prev_depth) / duration * cfg.velocity_scale / 100) 0 1
        else 0
      if rabs (prev_depth - new_value) < 1/100 ∨ new_value < s.current_value - 1/100 then
        { s with velocity := vel, lower_press := some (now, new_value) }
      else
        { s with velocity := vel }
    | none => s

/-- Step 3 of `KeyState::update_value` (lib.rs lines 75-77): the shift
latch, which only moves while the key is not pressed. -/
def KeyState.latch_shift (s : KeyState) (shifted_amount : Int) : KeyState :=
  if shifted_amount ≠ s.shifted_amount ∧ s.pressed = false then
    { s with shifted_amount := shifted_amount }
  else s

/-- `KeyState::get_effective_note` (lib.rs lines 104-111): the shifted
note, computed in `i16` (no 8-bit overflow), valid only in
`[MIDI_NOTE_MIN, MIDI_NOTE_MAX]`. -/
def KeyState.get_effective_note (s : KeyState) (base_note : Nat) : Option Nat :=
  let computed : Int := (base_note : Int) + s.shifted_amount
  if (MIDI_NOTE_MIN : Int) ≤ computed ∧ computed ≤ (MIDI_NOTE_MAX : Int) then
    some computed.toNat
  else none

/-- The outcome of one `update_value`-style step: the key state after
the mutations that actually ran, the successfully sent messages in
order, whether the call returned `Ok` (`ok`), and whether it panicked
(`crashed`: the logging unwrap of the note-on branch; then nothing was
sent by this step and `ok` is false). -/
structure KeyStepResult where
  state : KeyState
  msgs : List MidiMsg
  ok : Bool
  crashed : Bool
deriving DecidableEq

/-- Step 5 of `KeyState::update_value` (lib.rs lines 79-98): the trigger
decision.  In the note-on branch the `info!` call (lib.rs lines 82-88)
evaluates `self.lower_press.unwrap().0.elapsed()` before the send;
with no anchor the unwrap panics (the repository's main.rs installs
`env_logger` at info level, so the macro's arguments are evaluated) —
the `crashed` outcome, with no message sent and no state change.  On a
failed send the state mutation guarded behind the `?` does not
happen. -/
def KeyState.trigger (s : KeyState) (cfg : KeyConfig) (new_value : ℚ)
    (sinkOk : SinkOk) : KeyStepResult :=
  match s.get_effective_note cfg.note_id with
  | some effective_note =>
    if cfg.threshold < new_value then
      if s.pressed = false then
        match s.lower_press with
        | none => ⟨s, [], false, true⟩
        | some _ =>
          let msg := MidiMsg.noteOn effective_note s.velocity cfg.channel
          if sinkOk msg then ⟨{ s with pressed := true }, [msg], true, false⟩
          else ⟨s, [], false, false⟩
      else if AFTERTOUCH ∧ new_value ≠ s.current_value then
        let msg := MidiMsg.polyAftertouch effective_note new_value cfg.channel
        if sinkOk msg then ⟨s, [msg], true, false⟩
        else ⟨s, [], false, false⟩
      else ⟨s, [], true, false⟩
    else
      if s.pressed then
        let msg := MidiMsg.noteOff effective_note s.velocity cfg.channel
        if sinkOk msg then ⟨{ s with pressed := false }, [msg], true, false⟩
        else ⟨s, [], false, false⟩
      else ⟨s, [], true, false⟩
  | none => ⟨s, [], true, false⟩

/-- `KeyState::update_value` (lib.rs lines 48-102): anchor/velocity
update, shift latch, trigger decision, then
`self.current_value = new_value` — the last assignment is skipped when a
send fails or the note-on logging panics, because the function does not
reach it. -/
def KeyState.update_value (s : KeyState) (cfg : KeyConfig) (new_value now : ℚ)
    (sinkOk : SinkOk) (shifted_amount : Int) : KeyStepResult :=
  let s1 := s.anchor_velocity cfg new_value now
  let s2 := s1.latch_shift shifted_amount
  let r := s2.trigger cfg new_value sinkOk
  if r.ok then { r with state := { r.state with current_value := new_value } }
  else r

/-- One tick's inputs for a single key: the depth sample, the model
timestamp, and the externally computed shift amount. -/
structure TickInput where
  value : ℚ
  now : ℚ
  shift : Int
deriving DecidableEq

/-- A sequence of `update_value` calls on one key, aborting at the first
failed or panicking tick (the caller stops on the first error, and a
panic kills the polling thread). -/
def KeyState.run_updates (s : KeyState) (cfg : KeyConfig) (sinkOk : SinkOk) :
    List TickInput → KeyStepResult
  | [] => ⟨s, [], true, false⟩
  | i :: rest =>
    let r := s.update_value cfg i.value i.now sinkOk i.shift
    if r.ok then
      let r2 := r.state.run_updates cfg sinkOk rest
      ⟨r2.state, r.msgs ++ r2.msgs, r2.ok, r2.crashed⟩
    else r

/-- `Config` (config.rs): toggle keys, modifier keys, and the per-key
configuration map, with key codes modelled as naturals and the
`FxHashMap` as an association list. -/
structure Config where
  toggle_keys : List Nat
  modifier_keys : List Nat
  key_configs : List (Nat × KeyConfig)
deriving DecidableEq

/-- Association-list lookup, the model of `FxHashMap::get`. -/
def lookup_config (l : List (Nat × KeyConfig)) (k : Nat) : Option KeyConfig :=
  match l with
  | [] => none
  | p :: rest => if p.1 = k then some p.2 else lookup_config rest k

/-- The mutable fields of `MidiService` (lib.rs lines 114-121) the core
logic touches; the connection is abstracted to whether one is open. -/
structure MidiServiceState where
  hasConnection : Bool
  config : Config
  key_states : List (Nat × KeyState)
  enabled : Bool
  enabled_key_state : Bool
deriving DecidableEq

/-- The cleanup loop of `MidiService::set_config` (lib.rs lines 142-152):
for every pressed key whose old config entry exists and whose effective
note is valid, a note-off with the key's last velocity is sent; a failed
send propagates immediately.  The loop never mutates the key states. -/
def cleanup_notes (cfg : Config) (sinkOk : SinkOk) :
    List (Nat × KeyState) → List MidiMsg × Bool
  | [] => ([], true)
  | p :: rest =>
    if p.2.pressed then
      match lookup_config cfg.key_configs p.1 with
      | some kc =>
        match p.2.get_effective_note kc.note_id with
        | some eff =>
          let msg := MidiMsg.noteOff eff p.2.velocity kc.channel
          if sinkOk msg then
            let r := cleanup_notes cfg sinkOk rest
            (msg :: r.1, r.2)
          else ([], false)
        | none => cleanup_notes cfg sinkOk rest
      | none => cleanup_notes cfg sinkOk rest
    else cleanup_notes cfg sinkOk rest

/-- `MidiService::set_config` (lib.rs lines 140-163): run the cleanup
loop (only when a connection is open), then replace the config, clear
the key-state map and insert a fresh `KeyState::new` for every key of
the new `key_configs`.  On a failed send the `?` returns before any of
those mutations. -/
def MidiServiceState.set_config (s : MidiServiceState) (config : Config)
    (sinkOk : SinkOk) : MidiServiceState × List MidiMsg × Bool :=
  let r := if s.hasConnection then cleanup_notes s.config sinkOk s.key_states
           else ([], true)
  if r.2 then
    ({ s with
        config := config
        key_states := config.key_configs.map (fun p => (p.1, KeyState.new)) },
      r.1, true)
  else (s, r.1, false)

/-- `toggle_pressed` (lib.rs lines 175-179): any toggle key with depth
strictly above 0 in the snapshot; keys missing from the snapshot count
as unpressed. -/
def toggle_pressed_of (cfg : Config) (analog : Nat → Option ℚ) : Bool :=
  cfg.toggle_keys.any fun code =>
    match analog code with
    | some v => decide (0 < v)
    | none => false

/-- `modifier_pressed` (lib.rs lines 195-199). -/
def modifier_pressed_of (cfg : Config) (analog : Nat → Option ℚ) : Bool :=
  cfg.modifier_keys.any fun code =>
    match analog code with
    | some v => decide (0 < v)
    | none => false

/-- The outcome of the per-key loop of `poll`: the key-state list, the
messages sent, and the success/panic flags. -/
structure PollKeysResult where
  key_states : List (Nat × KeyState)
  msgs : List MidiMsg
  ok : Bool
  crashed : Bool
deriving DecidableEq

/-- The per-key loop of `MidiService::poll` (lib.rs lines 201-212):
each configured key reads its depth (default 0 when absent), computes
`modifier_pressed as i8 * shift_amount`, and runs `update_value`; the
first failure or panic aborts the loop, leaving later keys untouched. -/
def poll_keys (cfg : Config) (analog : Nat → Option ℚ) (now : ℚ)
    (sinkOk : SinkOk) (modifier_pressed : Bool) :
    List (Nat × KeyState) → PollKeysResult
  | [] => ⟨[], [], true, false⟩
  | p :: rest =>
    match lookup_config cfg.key_configs p.1 with
    | some kc =>
      let new_value := (analog p.1).getD 0
      let shifted_amount := (if modifier_pressed then 1 else 0) * kc.shift_amount
      let r := p.2.update_value kc new_value now sinkOk shifted_amount
      if r.ok then
        let r2 := poll_keys cfg analog now sinkOk modifier_pressed rest
        ⟨(p.1, r.state) :: r2.key_states, r.msgs ++ r2.msgs, r2.ok, r2.crashed⟩
      else ⟨(p.1, r.state) :: rest, r.msgs, false, r.crashed⟩
    | none =>
      let r2 := poll_keys cfg analog now sinkOk modifier_pressed rest
      ⟨p :: r2.key_states, r2.msgs, r2.ok, r2.crashed⟩

/-- The enable-toggle update of `MidiService::poll` (lib.rs lines
175-190): on a change of the aggregate toggle-key press state, store it,
and negate `enabled` when the new state is pressed. -/
def MidiServiceState.toggle_step (s : MidiServiceState)
    (analog : Nat → Option ℚ) : MidiServiceState :=
  let toggle_pressed := toggle_pressed_of s.config analog
  if toggle_pressed ≠ s.enabled_key_state then
    { s with
        enabled_key_state := toggle_pressed
        enabled := if toggle_pressed then !s.enabled else s.enabled }
  else s

/-- The outcome of one `poll` tick or a run of ticks. -/
structure ServiceStepResult where
  state : MidiServiceState
  msgs : List MidiMsg
  ok : Bool
  crashed : Bool
deriving DecidableEq

/-- `MidiService::poll` (lib.rs lines 165-215): fail without a
connection; update the edge-triggered enable toggle; stop early when
disabled; otherwise run the per-key loop with the modifier state. -/
def MidiServiceState.poll (s : MidiServiceState) (analog : Nat → Option ℚ)
    (now : ℚ) (sinkOk : SinkOk) : ServiceStepResult :=
  if s.hasConnection = false then ⟨s, [], false, false⟩
  else
    let s1 := s.toggle_step analog
    if s1.enabled = false then ⟨s1, [], true, false⟩
    else
      let modifier_pressed := modifier_pressed_of s1.config analog
      let r := poll_keys s1.config analog now sinkOk modifier_pressed s1.key_states
      ⟨{ s1 with key_states := r.key_states }, r.msgs, r.ok, r.crashed⟩

/-- A sequence of polls, each with its own snapshot and timestamp,
aborting at the first failed or panicking tick. -/
def MidiServiceState.run_polls (s : MidiServiceState) (sinkOk : SinkOk) :
    List ((Nat → Option ℚ) × ℚ) → ServiceStepResult
  | [] => ⟨s, [], true, false⟩
  | t :: rest =>
    let r := s.poll t.1 t.2 sinkOk
    if r.ok then
      let r2 := r.state.run_polls sinkOk rest
      ⟨r2.state, r.msgs ++ r2.msgs, r2.ok, r2.crashed⟩
    else r

/-- Reference definition transcribed from the words of the spec's steps
1-2 (spec.md §4.1), for the refinement claim C2: the resulting
(velocity, anchor) pair.  Reset to velocity 0 and anchor (now, value) on
a fresh downward travel or a full release; otherwise, with an anchor
(t, d), velocity is clamp((new - d)/elapsed * scale/100, 0, 1) when the
depths differ and 0 when equal, re-anchoring when the new depth is
within 0.01 of the anchor's or more than 0.01 below the previous
current value. -/
def spec_anchor_velocity (cfg : KeyConfig) (s : KeyState) (new_value now : ℚ) :
    ℚ × Option (ℚ × ℚ) :=
  if (s.current_value ≤ cfg.actuation_point ∧ cfg.actuation_point < new_value ∧
      new_value < cfg.threshold) ∨ new_value ≤ cfg.actuation_point then
    (0, some (now, new_value))
  else
    match s.lower_press with
    | some (t, d) =>
      let elapsed := now - t
      let vel :=
        if new_value ≠ d then
          min (max ((new_value - d) / elapsed * cfg.velocity_scale / 100) 0) 1
        else 0
      let anchor :=
        if |new_value - d| < 1/100 ∨ new_value < s.current_value - 1/100 then
          some (now, new_value)
        else s.lower_press
      (vel, anchor)
    | none => (s.velocity, s.lower_press)

/-! ### Field-preservation lemmas for the stages of `update_value` -/

theorem anchor_velocity_pressed (s : KeyState) (cfg : KeyConfig) (v now : ℚ) :
    (s.anchor_velocity cfg v now).pressed = s.pressed := by
  unfold KeyState.anchor_velocity
  repeat' first | rfl | split | dsimp only

theorem anchor_velocity_shifted (s : KeyState) (cfg : KeyConfig) (v now : ℚ) :
    (s.anchor_velocity cfg v now).shifted_amount = s.shifted_amount := by
  unfold KeyState.anchor_velocity
  repeat' first | rfl | split | dsimp only

theorem anchor_velocity_current (s : KeyState) (cfg : KeyConfig) (v now : ℚ) :
    (s.anchor_velocity cfg v now).current_value = s.current_value := by
  unfold KeyState.anchor_velocity
  repeat' first | rfl | split | dsimp only

theorem latch_shift_pressed (s : KeyState) (sh : Int) :
    (s.latch_shift sh).pressed = s.pressed := by
  unfold KeyState.latch_shift
  split <;> rfl

theorem latch_shift_velocity (s : KeyState) (sh : Int) :
    (s.latch_shift sh).velocity = s.velocity := by
  unfold KeyState.latch_shift
  split <;> rfl

theorem latch_shift_current (s : KeyState) (sh : Int) :
    (s.latch_shift sh).current_value = s.current_value := by
  unfold KeyState.latch_shift
  split <;> rfl

theorem latch_shift_lower (s : KeyState) (sh : Int) :
    (s.latch_shift sh).lower_press = s.lower_press := by
  unfold KeyState.latch_shift
  split <;> rfl

theorem latch_shift_of_pressed (s : KeyState) (sh : Int) (h : s.pressed = true) :
    s.latch_shift sh = s := by
  unfold KeyState.latch_shift
  split
  · next hc => rw [h] at hc; exact absurd hc.2 (by simp)
  · rfl

theorem trigger_velocity (s : KeyState) (cfg : KeyConfig) (v : ℚ) (k : SinkOk) :
    (s.trigger cfg v k).state.velocity = s.velocity := by
  unfold KeyState.trigger
  repeat' first | rfl | split | dsimp only

theorem trigger_lower (s : KeyState) (cfg : KeyConfig) (v : ℚ) (k : SinkOk) :
    (s.trigger cfg v k).state.lower_press = s.lower_press := by
  unfold KeyState.trigger
  repeat' first | rfl | split | dsimp only

theorem trigger_shifted (s : KeyState) (cfg : KeyConfig) (v : ℚ) (k : SinkOk) :
    (s.trigger cfg v k).state.shifted_amount = s.shifted_amount := by
  unfold KeyState.trigger
  repeat' first | rfl | split | dsimp only

theorem trigger_current (s : KeyState) (cfg : KeyConfig) (v : ℚ) (k : SinkOk) :
    (s.trigger cfg v k).state.current_value = s.current_value := by
  unfold KeyState.trigger
  repeat' first | rfl | split | dsimp only

theorem trigger_length (s : KeyState) (cfg : KeyConfig) (v : ℚ) (k : SinkOk) :
    (s.trigger cfg v k).msgs.length ≤ 1 := by
  unfold KeyState.trigger
  repeat' first | split | dsimp only
  all_goals simp

/-! ### Case analysis of the trigger decision -/

theorem trigger_of_none (s : KeyState) (cfg : KeyConfig) (v : ℚ) (k : SinkOk)
    (h : s.get_effective_note cfg.note_id = none) :
    s.trigger cfg v k = ⟨s, [], true, false⟩ := by
  unfold KeyState.trigger
  rw [h]

theorem trigger_noteOn (s : KeyState) (cfg : KeyConfig) (v : ℚ) (k : SinkOk)
    (eff : Nat) (heff : s.get_effective_note cfg.note_id = some eff)
    (hv : cfg.threshold < v) (hp : s.pressed = false)
    (hanchor : s.lower_press ≠ none)
    (hk : k (MidiMsg.noteOn eff s.velocity cfg.channel) = true) :
    s.trigger cfg v k =
      ⟨{ s with pressed := true },
        [MidiMsg.noteOn eff s.velocity cfg.channel], true, false⟩ := by
  unfold KeyState.trigger
  rw [heff]
  rcases hlp : s.lower_press with _ | p
  · exact absurd hlp hanchor
  · simp [hv, hp, hk, hlp]

theorem trigger_crash (s : KeyState) (cfg : KeyConfig) (v : ℚ) (k : SinkOk)
    (eff : Nat) (heff : s.get_effective_note cfg.note_id = some eff)
    (hv : cfg.threshold < v) (hp : s.pressed = false)
    (hanchor : s.lower_press = none) :
    s.trigger cfg v k = ⟨s, [], false, true⟩ := by
  unfold KeyState.trigger
  rw [heff]
  simp [hv, hp, hanchor]

theorem trigger_pressed_above (s : KeyState) (cfg : KeyConfig) (v : ℚ) (k : SinkOk)
    (eff : Nat) (heff : s.get_effective_note cfg.note_id = some eff)
    (hv : cfg.threshold < v) (hp : s.pressed = true) (hk : ∀ m, k m = true) :
    s.trigger cfg v k =
      ⟨s,
        if v = s.current_value then []
        else [MidiMsg.polyAftertouch eff v cfg.channel], true, false⟩ := by
  unfold KeyState.trigger
  rw [heff]
  simp [hv, hp, hk, AFTERTOUCH]
  split_ifs with hc <;> simp_all

theorem trigger_noteOff (s : KeyState) (cfg : KeyConfig) (v : ℚ) (k : SinkOk)
    (eff : Nat) (heff : s.get_effective_note cfg.note_id = some eff)
    (hv : ¬cfg.threshold < v) (hp : s.pressed = true)
    (hk : k (MidiMsg.noteOff eff s.velocity cfg.channel) = true) :
    s.trigger cfg v k =
      ⟨{ s with pressed := false },
        [MidiMsg.noteOff eff s.velocity cfg.channel], true, false⟩ := by
  unfold KeyState.trigger
  rw [heff]
  simp [hv, hp, hk]

theorem trigger_unpressed_below (s : KeyState) (cfg : KeyConfig) (v : ℚ) (k : SinkOk)
    (eff : Nat) (heff : s.get_effective_note cfg.note_id = some eff)
    (hv : ¬cfg.threshold < v) (hp : s.pressed = false) :
    s.trigger cfg v k = ⟨s, [], true, false⟩ := by
  unfold KeyState.trigger
  rw [heff]
  simp [hv, hp]

theorem trigger_ok_of_pressed (s : KeyState) (cfg : KeyConfig) (v : ℚ)
    (k : SinkOk) (hp : s.pressed = true) (hk : ∀ m, k m = true) :
    (s.trigger cfg v k).ok = true := by
  unfold KeyState.trigger
  repeat' first | split | dsimp only
  all_goals simp_all [hk]

/-! ### Projections of `update_value` through its stages -/

theorem update_value_msgs (s : KeyState) (cfg : KeyConfig) (v now : ℚ)
    (k : SinkOk) (sh : Int) :
    (s.update_value cfg v now k sh).msgs =
      (((s.anchor_velocity cfg v now).latch_shift sh).trigger cfg v k).msgs := by
  unfold KeyState.update_value
  dsimp only
  split <;> rfl

theorem update_value_ok_iff (s : KeyState) (cfg : KeyConfig) (v now : ℚ)
    (k : SinkOk) (sh : Int) :
    (s.update_value cfg v now k sh).ok =
      (((s.anchor_velocity cfg v now).latch_shift sh).trigger cfg v k).ok := by
  unfold KeyState.update_value
  dsimp only
  split <;> rfl

theorem update_value_crashed_iff (s : KeyState) (cfg : KeyConfig) (v now : ℚ)
    (k : SinkOk) (sh : Int) :
    (s.update_value cfg v now k sh).crashed =
      (((s.anchor_velocity cfg v now).latch_shift sh).trigger cfg v k).crashed := by
  unfold KeyState.update_value
  dsimp only
  split <;> rfl

theorem update_value_pressed (s : KeyState) (cfg : KeyConfig) (v now : ℚ)
    (k : SinkOk) (sh : Int) :
    (s.update_value cfg v now k sh).state.pressed =
      (((s.anchor_velocity cfg v now).latch_shift sh).trigger cfg v
        k).state.pressed := by
  unfold KeyState.update_value
  dsimp only
  split <;> rfl

theorem update_value_velocity (s : KeyState) (cfg : KeyConfig) (v now : ℚ)
    (k : SinkOk) (sh : Int) :
    (s.update_value cfg v now k sh).state.velocity =
      (s.anchor_velocity cfg v now).velocity := by
  unfold KeyState.update_value
  dsimp only
  split <;>
    simp only [trigger_velocity, latch_shift_velocity]

theorem update_value_lower (s : KeyState) (cfg : KeyConfig) (v now : ℚ)
    (k : SinkOk) (sh : Int) :
    (s.update_value cfg v now k sh).state.lower_press =
      (s.anchor_velocity cfg v now).lower_press := by
  unfold KeyState.update_value
  dsimp only
  split <;>
    simp only [trigger_lower, latch_shift_lower]

theorem update_value_shifted (s : KeyState) (cfg : KeyConfig) (v now : ℚ)
    (k : SinkOk) (sh : Int) :
    (s.update_value cfg v now k sh).state.shifted_amount =
      ((s.anchor_velocity cfg v now).latch_shift sh).shifted_amount := by
  unfold KeyState.update_value
  dsimp only
  split <;>
    simp only [trigger_shifted]

theorem update_value_current_of_ok (s : KeyState) (cfg : KeyConfig) (v now : ℚ)
    (k : SinkOk) (sh : Int) (h : (s.update_value cfg v now k sh).ok = true) :
    (s.update_value cfg v now k sh).state.current_value = v := by
  unfold KeyState.update_value at *
  dsimp only at *
  split at h <;> simp_all

theorem update_value_ok_of_pressed (s : KeyState) (cfg : KeyConfig) (v now : ℚ)
    (k : SinkOk) (sh : Int) (hp : s.pressed = true) (hk : ∀ m, k m = true) :
    (s.update_value cfg v now k sh).ok = true := by
  rw [update_value_ok_iff]
  exact trigger_ok_of_pressed _ cfg v k
    (by rw [latch_shift_pressed, anchor_velocity_pressed]; exact hp) hk

/-! ### Claim C1 -/

/-- The default-style key configuration used as a concrete test fixture
(config.rs `Default for KeyConfig`): middle C on channel 0, actuation
point 0, threshold 0.8, velocity scale 5, shift 12. -/
def cfgW : KeyConfig :=
  { note_id := 60
    channel := 0
    actuation_point := 0
    threshold := 4/5
    velocity_scale := 5
    aftertouch := true
    shift_amount := 12 }

/-- A concrete unpressed key state with a nonzero velocity estimate and
no anchor. -/
def sIdleW : KeyState :=
  { pressed := false
    shifted_amount := 0
    velocity := 1/2
    current_value := 0
    lower_press := none }

/-- A concrete unpressed key state mid-travel, with an anchor at depth
0 taken at time 0. -/
def sAnchorW : KeyState :=
  { pressed := false
    shifted_amount := 0
    velocity := 1/2
    current_value := 1/2
    lower_press := some (0, 0) }

/-- A concrete pressed key state at depth 0.85 above the threshold. -/
def sHeldW : KeyState :=
  { pressed := true
    shifted_amount := 0
    velocity := 1/2
    current_value := 17/20
    lower_press := none }

/-- C1 counterexample: the claim says that with a valid effective note,
depth above the threshold and `pressed = false`, exactly one note-on is
emitted and `pressed` becomes true.  But on a fresh key whose very first
sample jumps above the threshold, steps 1-2 establish no anchor (the
reset needs `new_value < threshold` or `new_value ≤ actuation_point`),
and the note-on branch's `info!` argument `self.lower_press.unwrap()`
(lib.rs line 87) panics before the send: nothing is emitted and
`pressed` stays false. -/
theorem C1_counterexample :
    cfgW.threshold < 9/10 ∧
    KeyState.new.pressed = false ∧
    ((KeyState.new.anchor_velocity cfgW (9/10) 1).latch_shift
      0).get_effective_note cfgW.note_id = some 60 ∧
    (KeyState.new.update_value cfgW (9/10) 1 (fun _ => true) 0).crashed = true ∧
    (KeyState.new.update_value cfgW (9/10) 1 (fun _ => true) 0).msgs = [] ∧
    (KeyState.new.update_value cfgW (9/10) 1
      (fun _ => true) 0).state.pressed = false := by
  refine ⟨by norm_num [cfgW], rfl, ?_, ?_, ?_, ?_⟩ <;>
    · norm_num [KeyState.update_value, KeyState.anchor_velocity,
        KeyState.latch_shift, KeyState.trigger, KeyState.get_effective_note,
        KeyState.new, cfgW, MIDI_NOTE_MIN, MIDI_NOTE_MAX]
      try rfl

/-- C1 (amended): for every `KeyState::update_value` call with a valid
effective note and a working sink: if the new depth exceeds the
threshold, the key is not pressed AND the velocity anchor of steps 1-2
exists (otherwise the note-on branch's logging unwrap panics before
emitting anything, as the counterexample shows), exactly one note-on for
the effective note and channel is emitted and `pressed` becomes true; if
the depth exceeds the threshold while already pressed, no note-on is
emitted; if the depth is at or below the threshold while pressed,
exactly one note-off is emitted and `pressed` becomes false; and in
every case at most one MIDI message is emitted by this key in this
tick. -/
theorem C1_update_value_trigger_decision (s : KeyState) (cfg : KeyConfig)
    (v now : ℚ) (sh : Int) (eff : Nat)
    (heff : ((s.anchor_velocity cfg v now).latch_shift sh).get_effective_note
      cfg.note_id = some eff) :
    (cfg.threshold < v → s.pressed = false →
      (s.anchor_velocity cfg v now).lower_press ≠ none →
      (s.update_value cfg v now (fun _ => true) sh).state.pressed = true ∧
      ∃ vel, (s.update_value cfg v now (fun _ => true) sh).msgs =
        [MidiMsg.noteOn eff vel cfg.channel]) ∧
    (cfg.threshold < v → s.pressed = true →
      ∀ n vel c, MidiMsg.noteOn n vel c ∉
        (s.update_value cfg v now (fun _ => true) sh).msgs) ∧
    (v ≤ cfg.threshold → s.pressed = true →
      (s.update_value cfg v now (fun _ => true) sh).state.pressed = false ∧
      ∃ vel, (s.update_value cfg v now (fun _ => true) sh).msgs =
        [MidiMsg.noteOff eff vel cfg.channel]) ∧
    (s.update_value cfg v now (fun _ => true) sh).msgs.length ≤ 1 := by
  have hk : ∀ m, (fun _ => true : SinkOk) m = true := fun _ => rfl
  have hp2 : ((s.anchor_velocity cfg v now).latch_shift sh).pressed = s.pressed := by
    rw [latch_shift_pressed, anchor_velocity_pressed]
  refine ⟨?_, ?_, ?_, ?_⟩
  · intro hv hp hanchor
    rw [update_value_pressed, update_value_msgs,
      trigger_noteOn _ cfg v _ eff heff hv (by rw [hp2]; exact hp)
        (by rw [latch_shift_lower]; exact hanchor) rfl]
    exact ⟨rfl, ((s.anchor_velocity cfg v now).latch_shift sh).velocity, rfl⟩
  · intro hv hp
    rw [update_value_msgs,
      trigger_pressed_above _ cfg v _ eff heff hv (by rw [hp2]; exact hp) hk]
    intro n vel c
    split <;> simp
  · intro hv hp
    rw [update_value_pressed, update_value_msgs,
      trigger_noteOff _ cfg v _ eff heff (not_lt.mpr hv) (by rw [hp2]; exact hp)
        rfl]
    exact ⟨rfl, ((s.anchor_velocity cfg v now).latch_shift sh).velocity, rfl⟩
  · rw [update_value_msgs]
    exact trigger_length _ _ _ _

/-- Witness for the amended C1 at a concrete input: threshold 0.8, a
press to depth 0.9 on an unpressed key with an anchor at depth 0 emits
exactly one note-on for note 60. -/
theorem C1_update_value_trigger_decision_witness :
    (cfgW.threshold < 9/10 → sAnchorW.pressed = false →
      (sAnchorW.anchor_velocity cfgW (9/10) 1).lower_press ≠ none →
      (sAnchorW.update_value cfgW (9/10) 1 (fun _ => true) 0).state.pressed =
        true ∧
      ∃ vel, (sAnchorW.update_value cfgW (9/10) 1 (fun _ => true) 0).msgs =
        [MidiMsg.noteOn 60 vel cfgW.channel]) ∧
    (cfgW.threshold < 9/10 → sAnchorW.pressed = true →
      ∀ n vel c, MidiMsg.noteOn n vel c ∉
        (sAnchorW.update_value cfgW (9/10) 1 (fun _ => true) 0).msgs) ∧
    ((9:ℚ)/10 ≤ cfgW.threshold → sAnchorW.pressed = true →
      (sAnchorW.update_value cfgW (9/10) 1 (fun _ => true) 0).state.pressed =
        false ∧
      ∃ vel, (sAnchorW.update_value cfgW (9/10) 1 (fun _ => true) 0).msgs =
        [MidiMsg.noteOff 60 vel cfgW.channel]) ∧
    (sAnchorW.update_value cfgW (9/10) 1 (fun _ => true) 0).msgs.length ≤ 1 :=
  C1_update_value_trigger_decision sAnchorW cfgW (9/10) 1 0 60 (by
    norm_num [KeyState.anchor_velocity, KeyState.latch_shift,
      KeyState.get_effective_note, sAnchorW, cfgW, MIDI_NOTE_MIN, MIDI_NOTE_MAX,
      rabs, rclamp]
    rfl)

/-! ### Claim C2 -/

theorem rabs_eq_abs (q : ℚ) : rabs q = |q| := by
  unfold rabs
  split
  · next h => exact (abs_of_neg h).symm
  · next h => exact (abs_of_nonneg (not_lt.mp h)).symm

theorem rclamp_eq_min_max (x lo hi : ℚ) (h : lo ≤ hi) :
    rclamp x lo hi = min (max x lo) hi := by
  unfold rclamp
  split
  · next hx => rw [max_eq_right (le_of_lt hx), min_eq_left h]
  · next hx =>
    rw [max_eq_left (not_lt.mp hx)]
    split
    · next h2 => rw [min_eq_right (le_of_lt h2)]
    · next h2 => rw [min_eq_left (not_lt.mp h2)]

/-- C2: for every `update_value` call, the resulting velocity and anchor
are exactly those of the spec's reference definition of steps 1-2: reset
to `(now, new_value)` with velocity 0 on a fresh downward travel below
the trigger point or on a full release; otherwise, with an anchor
`(t, d)`, velocity is `clamp((new - d)/elapsed * scale/100, 0, 1)` when
the depths differ and 0 when equal, re-anchoring when the new depth is
within 0.01 of the anchor's or more than 0.01 below the previous
current value. -/
theorem C2_anchor_velocity_refines_spec (s : KeyState) (cfg : KeyConfig)
    (v now : ℚ) (k : SinkOk) (sh : Int) :
    ((s.update_value cfg v now k sh).state.velocity,
      (s.update_value cfg v now k sh).state.lower_press) =
      spec_anchor_velocity cfg s v now := by
  rw [update_value_velocity, update_value_lower]
  unfold KeyState.anchor_velocity spec_anchor_velocity
  split
  · rfl
  · cases hl : s.lower_press with
    | none => simp only [hl]
    | some p =>
      obtain ⟨t, d⟩ := p
      simp only [hl]
      rw [rclamp_eq_min_max _ _ _ (by norm_num), rabs_eq_abs, abs_sub_comm]
      split <;> rfl

/-! ### Claim C3 -/

/-- `cfgW` with the per-key `aftertouch` field disabled. -/
def cfgAftertouchOffW : KeyConfig := { cfgW with aftertouch := false }

/-- C3 counterexample: the claim says a key configured with
`aftertouch = false` never emits an aftertouch message, but
`update_value` consults only the global `AFTERTOUCH` constant
(lib.rs line 91), so a pressed key at depth 0.9 over threshold 0.8
with a changed depth emits one even though its config field is false. -/
theorem C3_counterexample :
    cfgAftertouchOffW.aftertouch = false ∧
    (sHeldW.update_value cfgAftertouchOffW (9/10) 1 (fun _ => true) 0).msgs =
      [MidiMsg.polyAftertouch 60 (9/10) 0] := by
  refine ⟨rfl, ?_⟩
  norm_num [KeyState.update_value, KeyState.anchor_velocity, KeyState.latch_shift,
    KeyState.trigger, KeyState.get_effective_note, sHeldW, cfgAftertouchOffW,
    cfgW, AFTERTOUCH, MIDI_NOTE_MIN, MIDI_NOTE_MAX]
  rfl

/-- C3 (amended): for every `update_value` call with the key pressed, a
valid effective note and depth above the threshold, a polyphonic
aftertouch for the new depth is emitted iff the global `AFTERTOUCH`
constant is enabled and the depth differs from the previous
`current_value`; the per-key `KeyConfig.aftertouch` field is never
consulted, so it holds for every value of that field. -/
theorem C3_aftertouch_uses_global_const (s : KeyState) (cfg : KeyConfig)
    (v now : ℚ) (sh : Int) (eff : Nat)
    (hp : s.pressed = true)
    (heff : ((s.anchor_velocity cfg v now).latch_shift sh).get_effective_note
      cfg.note_id = some eff)
    (hv : cfg.threshold < v) :
    (s.update_value cfg v now (fun _ => true) sh).msgs =
      if AFTERTOUCH ∧ v ≠ s.current_value then
        [MidiMsg.polyAftertouch eff v cfg.channel]
      else [] := by
  rw [update_value_msgs,
    trigger_pressed_above _ cfg v _ eff heff hv
      (by rw [latch_shift_pressed, anchor_velocity_pressed]; exact hp)
      (fun _ => rfl)]
  rw [latch_shift_current, anchor_velocity_current]
  by_cases hc : v = s.current_value <;> simp [hc, AFTERTOUCH]

/-- Witness for the amended C3 at a concrete input: a pressed key at
depth 0.9 with previous depth 0.85 emits one aftertouch. -/
theorem C3_aftertouch_uses_global_const_witness :
    (sHeldW.update_value cfgW (9/10) 1 (fun _ => true) 0).msgs =
      if AFTERTOUCH ∧ (9:ℚ)/10 ≠ sHeldW.current_value then
        [MidiMsg.polyAftertouch 60 (9/10) cfgW.channel]
      else [] :=
  C3_aftertouch_uses_global_const sHeldW cfgW (9/10) 1 0 60 rfl
    (by
      norm_num [KeyState.anchor_velocity, KeyState.latch_shift,
        KeyState.get_effective_note, sHeldW, cfgW, MIDI_NOTE_MIN, MIDI_NOTE_MAX]
      rfl)
    (by norm_num [cfgW])

/-! ### Claim C4 -/

theorem rat_floor_eq_floor (q : ℚ) : Rat.floor q = ⌊q⌋ := by
  rw [Rat.floor_def']
  exact Rat.floor_def.symm

theorem f32_as_u8_of_le (q : ℚ) (h : q ≤ 255) : f32_as_u8 q = (⌊q⌋).toNat := by
  unfold f32_as_u8
  rw [rat_floor_eq_floor]
  rw [if_pos]
  calc ⌊q⌋ ≤ ⌊(255:ℚ)⌋ := Int.floor_le_floor h
    _ = 255 := by norm_num

theorem rmin_le_right_one (v : ℚ) : rmin v 1 ≤ 1 := by
  unfold rmin
  split
  · next h => exact h
  · exact le_refl 1

theorem rmin_mul_127_le (v : ℚ) : rmin v 1 * 127 ≤ 255 := by
  have h := rmin_le_right_one v
  nlinarith

/-- C4 counterexample: the claim says the third byte of a note-on is
`round(min(velocity, 1) * 127)`, but at velocity 1/2 the code transmits
byte 63 (`as u8` truncates toward zero) while the rounded value is 64. -/
theorem C4_counterexample :
    (MidiMsg.noteOn 60 (1/2) 0).bytes = [0x90, 60, 63] ∧
    round (rmin (1/2 : ℚ) 1 * 127) = (64 : ℤ) := by
  constructor
  · show [Nat.lor NOTE_ON_MSG 0, 60, f32_as_u8 (rmin (1/2) 1 * 127)] = _
    rw [f32_as_u8_of_le _ (rmin_mul_127_le _)]
    norm_num [NOTE_ON_MSG, rmin]
    decide
  · norm_num [rmin, round_eq]

/-- C4 (amended): for every note-on/note-off with velocity `v ≥ 0` and
every aftertouch with pressure `p ≥ 0`, the transmitted third byte is
the TRUNCATION `⌊min(value, 1) * 127⌋` (not the rounding the claim
states), the first byte is the status nibble (0x90/0x80/0xA0) OR-ed
with the channel, and the second byte is the note number. -/
theorem C4_encoding_truncates (note ch : Nat) (v w p : ℚ)
    (hv : 0 ≤ v) (hw : 0 ≤ w) (hp : 0 ≤ p) :
    (MidiMsg.noteOn note v ch).bytes =
      [Nat.lor 0x90 ch, note, (⌊rmin v 1 * 127⌋).toNat] ∧
    (MidiMsg.noteOff note w ch).bytes =
      [Nat.lor 0x80 ch, note, (⌊rmin w 1 * 127⌋).toNat] ∧
    (MidiMsg.polyAftertouch note p ch).bytes =
      [Nat.lor 0xA0 ch, note, (⌊rmin p 1 * 127⌋).toNat] := by
  unfold MidiMsg.bytes
  dsimp only
  rw [f32_as_u8_of_le _ (rmin_mul_127_le v), f32_as_u8_of_le _ (rmin_mul_127_le w),
    f32_as_u8_of_le _ (rmin_mul_127_le p)]
  exact ⟨rfl, rfl, rfl⟩

/-- Witness for the amended C4 at note 60, channel 0, value 1/2 for all
three message kinds. -/
theorem C4_encoding_truncates_witness :
    (MidiMsg.noteOn 60 (1/2) 0).bytes =
      [Nat.lor 0x90 0, 60, (⌊rmin (1/2 : ℚ) 1 * 127⌋).toNat] ∧
    (MidiMsg.noteOff 60 (1/2) 0).bytes =
      [Nat.lor 0x80 0, 60, (⌊rmin (1/2 : ℚ) 1 * 127⌋).toNat] ∧
    (MidiMsg.polyAftertouch 60 (1/2) 0).bytes =
      [Nat.lor 0xA0 0, 60, (⌊rmin (1/2 : ℚ) 1 * 127⌋).toNat] :=
  C4_encoding_truncates 60 0 (1/2) (1/2) (1/2)
    (by norm_num) (by norm_num) (by norm_num)

/-! ### Claims C7 and C8: the shift latch and invalid effective notes -/

theorem get_effective_note_congr (s1 s2 : KeyState) (b : Nat)
    (h : s1.shifted_amount = s2.shifted_amount) :
    s1.get_effective_note b = s2.get_effective_note b := by
  unfold KeyState.get_effective_note
  rw [h]

theorem latch_shift_shifted_congr (s1 s2 : KeyState) (sh : Int)
    (h1 : s1.shifted_amount = s2.shifted_amount) (h2 : s1.pressed = s2.pressed) :
    (s1.latch_shift sh).shifted_amount = (s2.latch_shift sh).shifted_amount := by
  unfold KeyState.latch_shift
  rw [h1, h2]
  split <;> simp [h1]

theorem update_value_shifted_of_pressed (s : KeyState) (cfg : KeyConfig)
    (v now : ℚ) (k : SinkOk) (sh : Int) (hp : s.pressed = true) :
    (s.update_value cfg v now k sh).state.shifted_amount = s.shifted_amount := by
  rw [update_value_shifted,
    latch_shift_of_pressed _ _ (by rw [anchor_velocity_pressed]; exact hp),
    anchor_velocity_shifted]

theorem update_value_held_above (s : KeyState) (cfg : KeyConfig) (v now : ℚ)
    (sh : Int) (eff : Nat) (hp : s.pressed = true)
    (heff : s.get_effective_note cfg.note_id = some eff)
    (hv : cfg.threshold < v) :
    (s.update_value cfg v now (fun _ => true) sh).state.pressed = true ∧
    (s.update_value cfg v now (fun _ => true) sh).state.shifted_amount =
      s.shifted_amount ∧
    ∀ m ∈ (s.update_value cfg v now (fun _ => true) sh).msgs, m.note = eff := by
  have hs2 : (s.anchor_velocity cfg v now).latch_shift sh =
      s.anchor_velocity cfg v now :=
    latch_shift_of_pressed _ _ (by rw [anchor_velocity_pressed]; exact hp)
  have heff2 : (s.anchor_velocity cfg v now).get_effective_note cfg.note_id =
      some eff := by
    rw [get_effective_note_congr _ s _ (anchor_velocity_shifted s cfg v now)]
    exact heff
  have htrig := trigger_pressed_above (s.anchor_velocity cfg v now) cfg v
    (fun _ => true) eff heff2 hv (by rw [anchor_velocity_pressed]; exact hp)
    (fun _ => rfl)
  refine ⟨?_, ?_, ?_⟩
  · rw [update_value_pressed, hs2, htrig]
    show (s.anchor_velocity cfg v now).pressed = true
    rw [anchor_velocity_pressed]; exact hp
  · exact update_value_shifted_of_pressed s cfg v now _ sh hp
  · rw [update_value_msgs, hs2, htrig]
    intro m hm
    by_cases hc : v = (s.anchor_velocity cfg v now).current_value
    · rw [if_pos hc] at hm
      exact absurd hm (List.not_mem_nil m)
    · rw [if_neg hc] at hm
      rw [List.mem_singleton.mp hm]
      rfl

theorem run_updates_held_above (cfg : KeyConfig) (eff : Nat)
    (inputs : List TickInput) :
    ∀ s : KeyState, s.pressed = true →
      s.get_effective_note cfg.note_id = some eff →
      (∀ i ∈ inputs, cfg.threshold < i.value) →
      (s.run_updates cfg (fun _ => true) inputs).state.pressed = true ∧
      (s.run_updates cfg (fun _ => true) inputs).state.shifted_amount =
        s.shifted_amount ∧
      (s.run_updates cfg (fun _ => true) inputs).state.get_effective_note
        cfg.note_id = some eff ∧
      ∀ m ∈ (s.run_updates cfg (fun _ => true) inputs).msgs, m.note = eff := by
  induction inputs with
  | nil =>
    intro s hp heff _
    exact ⟨hp, rfl, heff, by intro m hm; exact absurd hm (List.not_mem_nil m)⟩
  | cons i rest ih =>
    intro s hp heff hin
    have hok : (s.update_value cfg i.value i.now (fun _ => true) i.shift).ok =
        true := update_value_ok_of_pressed s cfg i.value i.now _ i.shift hp
          (fun _ => rfl)
    have hstep := update_value_held_above s cfg i.value i.now i.shift eff hp heff
      (hin i (List.mem_cons_self i rest))
    have heff2 : (s.update_value cfg i.value i.now (fun _ => true)
        i.shift).state.get_effective_note cfg.note_id = some eff := by
      rw [get_effective_note_congr _ s _ hstep.2.1]
      exact heff
    have hrest := ih
      (s.update_value cfg i.value i.now (fun _ => true) i.shift).state
      hstep.1 heff2 (fun j hj => hin j (List.mem_cons_of_mem i hj))
    unfold KeyState.run_updates
    dsimp only
    rw [hok]
    simp only [if_true]
    refine ⟨hrest.1, hrest.2.1.trans hstep.2.1, hrest.2.2.1, ?_⟩
    intro m hm
    rcases List.mem_append.mp hm with h | h
    · exact hstep.2.2 m h
    · exact hrest.2.2.2 m h

/-- C7: the stored `shifted_amount` changes only while `pressed` is
false at the latch point: any single `update_value` on a pressed key
leaves it unchanged; consequently, across any sequence of ticks that
keep the key above the threshold (hence pressed), the latched shift and
the effective note of every emitted message stay those latched at
press time even if the externally supplied shift amounts differ, and
the eventual release tick emits the note-off on that same effective
note. -/
theorem C7_shift_latched_while_pressed (s : KeyState) (cfg : KeyConfig)
    (eff : Nat) (inputs : List TickInput) (rel : TickInput)
    (hp : s.pressed = true)
    (heff : s.get_effective_note cfg.note_id = some eff)
    (hin : ∀ i ∈ inputs, cfg.threshold < i.value)
    (hrel : rel.value ≤ cfg.threshold) :
    (∀ (v now : ℚ) (k : SinkOk) (sh : Int),
      (s.update_value cfg v now k sh).state.shifted_amount =
        s.shifted_amount) ∧
    (s.run_updates cfg (fun _ => true) inputs).state.shifted_amount =
      s.shifted_amount ∧
    (s.run_updates cfg (fun _ => true) inputs).state.pressed = true ∧
    (∀ m ∈ (s.run_updates cfg (fun _ => true) inputs).msgs, m.note = eff) ∧
    ∃ vel,
      ((s.run_updates cfg (fun _ => true) inputs).state.update_value cfg
        rel.value rel.now (fun _ => true) rel.shift).msgs =
        [MidiMsg.noteOff eff vel cfg.channel] := by
  have hrun := run_updates_held_above cfg eff inputs s hp heff hin
  refine ⟨fun v now k sh => update_value_shifted_of_pressed s cfg v now k sh hp,
    hrun.2.1, hrun.1, hrun.2.2.2, ?_⟩
  set s1 := (s.run_updates cfg (fun _ => true) inputs).state with hs1
  have hs2 : (s1.anchor_velocity cfg rel.value rel.now).latch_shift rel.shift =
      s1.anchor_velocity cfg rel.value rel.now :=
    latch_shift_of_pressed _ _ (by rw [anchor_velocity_pressed]; exact hrun.1)
  have heff2 : (s1.anchor_velocity cfg rel.value rel.now).get_effective_note
      cfg.note_id = some eff := by
    rw [get_effective_note_congr _ s1 _ (anchor_velocity_shifted s1 cfg _ _)]
    exact hrun.2.2.1
  refine ⟨(s1.anchor_velocity cfg rel.value rel.now).velocity, ?_⟩
  rw [update_value_msgs, hs2,
    trigger_noteOff _ cfg rel.value _ eff heff2 (not_lt.mpr hrel)
      (by rw [anchor_velocity_pressed]; exact hrun.1) rfl]

/-- Witness for C7: a held key at note 60 run through two over-threshold
ticks with a changed supplied shift, then released. -/
theorem C7_shift_latched_while_pressed_witness :
    (∀ (v now : ℚ) (k : SinkOk) (sh : Int),
      (sHeldW.update_value cfgW v now k sh).state.shifted_amount =
        sHeldW.shifted_amount) ∧
    (sHeldW.run_updates cfgW (fun _ => true)
      [⟨9/10, 1, 12⟩, ⟨19/20, 2, 12⟩]).state.shifted_amount =
      sHeldW.shifted_amount ∧
    (sHeldW.run_updates cfgW (fun _ => true)
      [⟨9/10, 1, 12⟩, ⟨19/20, 2, 12⟩]).state.pressed = true ∧
    (∀ m ∈ (sHeldW.run_updates cfgW (fun _ => true)
      [⟨9/10, 1, 12⟩, ⟨19/20, 2, 12⟩]).msgs, m.note = 60) ∧
    ∃ vel,
      ((sHeldW.run_updates cfgW (fun _ => true)
        [⟨9/10, 1, 12⟩, ⟨19/20, 2, 12⟩]).state.update_value cfgW (0 : ℚ) 3
        (fun _ => true) 12).msgs = [MidiMsg.noteOff 60 vel cfgW.channel] :=
  C7_shift_latched_while_pressed sHeldW cfgW 60 [⟨9/10, 1, 12⟩, ⟨19/20, 2, 12⟩]
    ⟨0, 3, 12⟩ rfl
    (by
      norm_num [KeyState.get_effective_note, sHeldW, MIDI_NOTE_MIN, MIDI_NOTE_MAX,
        cfgW]
      rfl)
    (by intro i hi; fin_cases hi <;> norm_num [cfgW])
    (by norm_num [cfgW])

/-- C8: when the latched shift puts `note_id + shifted_amount` outside
`[21, 108]`, `update_value` emits no MIDI message of any kind and the
trigger step is skipped entirely (so `pressed` never changes and the
note-on logging panic cannot fire), while the anchor/velocity update,
the shift latch, and the final `current_value := new_value` assignment
still occur. -/
theorem C8_out_of_range_note_silent (s : KeyState) (cfg : KeyConfig)
    (v now : ℚ) (k : SinkOk) (sh : Int)
    (h : (cfg.note_id : Int) + (s.latch_shift sh).shifted_amount <
        (MIDI_NOTE_MIN : Int) ∨
      (MIDI_NOTE_MAX : Int) <
        (cfg.note_id : Int) + (s.latch_shift sh).shifted_amount) :
    (s.update_value cfg v now k sh).msgs = [] ∧
    (s.update_value cfg v now k sh).ok = true ∧
    (s.update_value cfg v now k sh).crashed = false ∧
    (s.update_value cfg v now k sh).state.pressed = s.pressed ∧
    (s.update_value cfg v now k sh).state.current_value = v ∧
    (s.update_value cfg v now k sh).state.shifted_amount =
      (s.latch_shift sh).shifted_amount ∧
    (s.update_value cfg v now k sh).state.velocity =
      (s.anchor_velocity cfg v now).velocity ∧
    (s.update_value cfg v now k sh).state.lower_press =
      (s.anchor_velocity cfg v now).lower_press := by
  have hsh : ((s.anchor_velocity cfg v now).latch_shift sh).shifted_amount =
      (s.latch_shift sh).shifted_amount :=
    latch_shift_shifted_congr _ s sh (anchor_velocity_shifted s cfg v now)
      (anchor_velocity_pressed s cfg v now)
  have heff : ((s.anchor_velocity cfg v now).latch_shift sh).get_effective_note
      cfg.note_id = none := by
    unfold KeyState.get_effective_note
    dsimp only
    rw [hsh, if_neg]
    intro hc
    rcases h with h | h
    · exact absurd hc.1 (not_le.mpr h)
    · exact absurd hc.2 (not_le.mpr h)
  have htrig := trigger_of_none ((s.anchor_velocity cfg v now).latch_shift sh)
    cfg v k heff
  have hok : (s.update_value cfg v now k sh).ok = true := by
    rw [update_value_ok_iff, htrig]
  refine ⟨?_, hok, ?_, ?_, update_value_current_of_ok s cfg v now k sh hok,
    ?_, ?_, ?_⟩
  · rw [update_value_msgs, htrig]
  · rw [update_value_crashed_iff, htrig]
  · rw [update_value_pressed, htrig]
    show ((s.anchor_velocity cfg v now).latch_shift sh).pressed = s.pressed
    rw [latch_shift_pressed, anchor_velocity_pressed]
  · rw [update_value_shifted, hsh]
  · exact update_value_velocity s cfg v now k sh
  · exact update_value_lower s cfg v now k sh

/-- Witness for C8: shift 50 on note 60 gives 110 > 108; a depth of 0.9
over the threshold emits nothing and only updates the passive state. -/
theorem C8_out_of_range_note_silent_witness :
    (sIdleW.update_value cfgW (9/10) 1 (fun _ => true) 50).msgs = [] ∧
    (sIdleW.update_value cfgW (9/10) 1 (fun _ => true) 50).ok = true ∧
    (sIdleW.update_value cfgW (9/10) 1 (fun _ => true) 50).crashed = false ∧
    (sIdleW.update_value cfgW (9/10) 1 (fun _ => true) 50).state.pressed =
      sIdleW.pressed ∧
    (sIdleW.update_value cfgW (9/10) 1
      (fun _ => true) 50).state.current_value = 9/10 ∧
    (sIdleW.update_value cfgW (9/10) 1
      (fun _ => true) 50).state.shifted_amount =
      (sIdleW.latch_shift 50).shifted_amount ∧
    (sIdleW.update_value cfgW (9/10) 1 (fun _ => true) 50).state.velocity =
      (sIdleW.anchor_velocity cfgW (9/10) 1).velocity ∧
    (sIdleW.update_value cfgW (9/10) 1 (fun _ => true) 50).state.lower_press =
      (sIdleW.anchor_velocity cfgW (9/10) 1).lower_press :=
  C8_out_of_range_note_silent sIdleW cfgW (9/10) 1 (fun _ => true) 50
    (by
      right
      norm_num [KeyState.latch_shift, sIdleW, cfgW, MIDI_NOTE_MAX])

/-! ### Claim C9: range invariants -/

theorem rclamp01_bounds (x : ℚ) : 0 ≤ rclamp x 0 1 ∧ rclamp x 0 1 ≤ 1 := by
  unfold rclamp
  split_ifs <;> constructor <;> linarith

theorem anchor_velocity_bounds (s : KeyState) (cfg : KeyConfig) (v now : ℚ)
    (h : 0 ≤ s.velocity ∧ s.velocity ≤ 1) :
    0 ≤ (s.anchor_velocity cfg v now).velocity ∧
      (s.anchor_velocity cfg v now).velocity ≤ 1 := by
  unfold KeyState.anchor_velocity
  split
  · dsimp only
    norm_num
  · split
    · dsimp only
      split <;>
        · dsimp only
          split
          · exact rclamp01_bounds _
          · norm_num
    · exact h

theorem update_value_current_of_fail (s : KeyState) (cfg : KeyConfig)
    (v now : ℚ) (k : SinkOk) (sh : Int)
    (hf : (s.update_value cfg v now k sh).ok = false) :
    (s.update_value cfg v now k sh).state.current_value = s.current_value := by
  unfold KeyState.update_value at hf ⊢
  dsimp only at hf ⊢
  split at hf
  · simp_all
  · rw [if_neg (by assumption)]
    rw [trigger_current, latch_shift_current, anchor_velocity_current]

theorem update_value_state_bounds (s : KeyState) (cfg : KeyConfig)
    (v now : ℚ) (k : SinkOk) (sh : Int)
    (h1 : 0 ≤ s.velocity ∧ s.velocity ≤ 1)
    (h2 : 0 ≤ s.current_value ∧ s.current_value ≤ 1)
    (hv : 0 ≤ v ∧ v ≤ 1) :
    (0 ≤ (s.update_value cfg v now k sh).state.velocity ∧
      (s.update_value cfg v now k sh).state.velocity ≤ 1) ∧
    (0 ≤ (s.update_value cfg v now k sh).state.current_value ∧
      (s.update_value cfg v now k sh).state.current_value ≤ 1) := by
  constructor
  · rw [update_value_velocity]
    exact anchor_velocity_bounds s cfg v now h1
  · cases hok : (s.update_value cfg v now k sh).ok with
    | true => rw [update_value_current_of_ok s cfg v now k sh hok]; exact hv
    | false => rw [update_value_current_of_fail s cfg v now k sh hok]; exact h2

theorem get_effective_note_range (s : KeyState) (b : Nat) (eff : Nat)
    (h : s.get_effective_note b = some eff) :
    MIDI_NOTE_MIN ≤ eff ∧ eff ≤ MIDI_NOTE_MAX := by
  unfold KeyState.get_effective_note at h
  dsimp only at h
  split at h
  · next hc =>
    cases h
    unfold MIDI_NOTE_MIN MIDI_NOTE_MAX at *
    omega
  · cases h

theorem trigger_msgs_note_range (s : KeyState) (cfg : KeyConfig) (v : ℚ)
    (k : SinkOk) :
    ∀ m ∈ (s.trigger cfg v k).msgs,
      MIDI_NOTE_MIN ≤ m.note ∧ m.note ≤ MIDI_NOTE_MAX := by
  intro m hm
  unfold KeyState.trigger at hm
  repeat' first | (split at hm) | (dsimp only at hm)
  all_goals try exact absurd hm (List.not_mem_nil m)
  all_goals
    rw [List.mem_singleton.mp hm]
    exact get_effective_note_range _ _ _ (by assumption)

theorem update_value_msgs_note_range (s : KeyState) (cfg : KeyConfig)
    (v now : ℚ) (k : SinkOk) (sh : Int) :
    ∀ m ∈ (s.update_value cfg v now k sh).msgs,
      MIDI_NOTE_MIN ≤ m.note ∧ m.note ≤ MIDI_NOTE_MAX := by
  rw [update_value_msgs]
  exact trigger_msgs_note_range _ cfg v k

theorem run_updates_msgs_note_range (cfg : KeyConfig) (k : SinkOk)
    (inputs : List TickInput) :
    ∀ s : KeyState, ∀ m ∈ (s.run_updates cfg k inputs).msgs,
      MIDI_NOTE_MIN ≤ m.note ∧ m.note ≤ MIDI_NOTE_MAX := by
  induction inputs with
  | nil => intro s m hm; exact absurd hm (List.not_mem_nil m)
  | cons i rest ih =>
    intro s m hm
    unfold KeyState.run_updates at hm
    dsimp only at hm
    split at hm
    · rcases List.mem_append.mp hm with h | h
      · exact update_value_msgs_note_range s cfg i.value i.now k i.shift m h
      · exact ih _ m h
    · exact update_value_msgs_note_range s cfg i.value i.now k i.shift m hm

theorem run_updates_state_bounds (cfg : KeyConfig) (k : SinkOk)
    (inputs : List TickInput) :
    ∀ s : KeyState, (∀ i ∈ inputs, 0 ≤ i.value ∧ i.value ≤ 1) →
      (0 ≤ s.velocity ∧ s.velocity ≤ 1) →
      (0 ≤ s.current_value ∧ s.current_value ≤ 1) →
      (0 ≤ (s.run_updates cfg k inputs).state.velocity ∧
        (s.run_updates cfg k inputs).state.velocity ≤ 1) ∧
      (0 ≤ (s.run_updates cfg k inputs).state.current_value ∧
        (s.run_updates cfg k inputs).state.current_value ≤ 1) := by
  induction inputs with
  | nil => intro s _ h1 h2; exact ⟨h1, h2⟩
  | cons i rest ih =>
    intro s hvals h1 h2
    have hstep := update_value_state_bounds s cfg i.value i.now k i.shift h1 h2
      (hvals i (List.mem_cons_self i rest))
    unfold KeyState.run_updates
    dsimp only
    split
    · exact ih _ (fun j hj => hvals j (List.mem_cons_of_mem i hj))
        hstep.1 hstep.2
    · exact hstep

theorem f32_as_u8_le_127 (q : ℚ) (h : q ≤ 127) : f32_as_u8 q ≤ 127 := by
  have hf : Rat.floor q ≤ 127 := by
    rw [rat_floor_eq_floor]
    calc ⌊q⌋ ≤ ⌊(127:ℚ)⌋ := Int.floor_le_floor h
      _ = 127 := by norm_num
  unfold f32_as_u8
  split <;> omega

theorem msg_data_bytes_le (m : MidiMsg) (h : m.note ≤ 127) :
    ∀ b ∈ m.bytes.drop 1, b ≤ 127 := by
  have hb : ∀ x : ℚ, f32_as_u8 (rmin x 1 * 127) ≤ 127 := by
    intro x
    refine f32_as_u8_le_127 _ ?_
    have := rmin_le_right_one x
    nlinarith
  cases m <;>
    · intro b hbm
      simp only [MidiMsg.bytes, List.drop, List.mem_cons, List.not_mem_nil,
        or_false] at hbm
      rcases hbm with h1 | h1
      · subst h1; exact h
      · subst h1; exact hb _

/-- C9: starting from the fresh `KeyState::new` and applying any
sequence of `update_value` calls whose depth samples lie in `[0, 1]`
(with any sink), the `velocity` and `current_value` fields always remain
within `[0, 1]`, and every data byte (second and third byte) of every
emitted MIDI message lies within `[0, 127]`. -/
theorem C9_range_invariants (cfg : KeyConfig) (k : SinkOk)
    (inputs : List TickInput)
    (hvals : ∀ i ∈ inputs, 0 ≤ i.value ∧ i.value ≤ 1) :
    (0 ≤ (KeyState.new.run_updates cfg k inputs).state.velocity ∧
      (KeyState.new.run_updates cfg k inputs).state.velocity ≤ 1) ∧
    (0 ≤ (KeyState.new.run_updates cfg k inputs).state.current_value ∧
      (KeyState.new.run_updates cfg k inputs).state.current_value ≤ 1) ∧
    ∀ m ∈ (KeyState.new.run_updates cfg k inputs).msgs,
      ∀ b ∈ m.bytes.drop 1, b ≤ 127 := by
  have hb := run_updates_state_bounds cfg k inputs KeyState.new hvals
    (by norm_num [KeyState.new]) (by norm_num [KeyState.new])
  refine ⟨hb.1, hb.2, ?_⟩
  intro m hm
  have hr := run_updates_msgs_note_range cfg k inputs KeyState.new m hm
  refine msg_data_bytes_le m ?_
  unfold MIDI_NOTE_MAX at hr
  omega

/-- Witness for C9: the spec's §8 depth sequence 0 → 0.9 → 0.95 → 0 on
the default configuration. -/
theorem C9_range_invariants_witness :
    (0 ≤ (KeyState.new.run_updates cfgW (fun _ => true)
        [⟨0, 0, 0⟩, ⟨9/10, 1/20, 0⟩, ⟨19/20, 1/10, 0⟩,
          ⟨0, 3/20, 0⟩]).state.velocity ∧
      (KeyState.new.run_updates cfgW (fun _ => true)
        [⟨0, 0, 0⟩, ⟨9/10, 1/20, 0⟩, ⟨19/20, 1/10, 0⟩,
          ⟨0, 3/20, 0⟩]).state.velocity ≤ 1) ∧
    (0 ≤ (KeyState.new.run_updates cfgW (fun _ => true)
        [⟨0, 0, 0⟩, ⟨9/10, 1/20, 0⟩, ⟨19/20, 1/10, 0⟩,
          ⟨0, 3/20, 0⟩]).state.current_value ∧
      (KeyState.new.run_updates cfgW (fun _ => true)
        [⟨0, 0, 0⟩, ⟨9/10, 1/20, 0⟩, ⟨19/20, 1/10, 0⟩,
          ⟨0, 3/20, 0⟩]).state.current_value ≤ 1) ∧
    ∀ m ∈ (KeyState.new.run_updates cfgW (fun _ => true)
        [⟨0, 0, 0⟩, ⟨9/10, 1/20, 0⟩, ⟨19/20, 1/10, 0⟩, ⟨0, 3/20, 0⟩]).msgs,
      ∀ b ∈ m.bytes.drop 1, b ≤ 127 :=
  C9_range_invariants cfgW (fun _ => true)
    [⟨0, 0, 0⟩, ⟨9/10, 1/20, 0⟩, ⟨19/20, 1/10, 0⟩, ⟨0, 3/20, 0⟩]
    (by intro i hi; fin_cases hi <;> norm_num)

/-! ### Claim C5: the edge-triggered enable toggle of `poll` -/

theorem toggle_step_config (s : MidiServiceState) (analog : Nat → Option ℚ) :
    (s.toggle_step analog).config = s.config := by
  unfold MidiServiceState.toggle_step
  repeat' first | rfl | split | dsimp only

theorem toggle_step_hasConnection (s : MidiServiceState)
    (analog : Nat → Option ℚ) :
    (s.toggle_step analog).hasConnection = s.hasConnection := by
  unfold MidiServiceState.toggle_step
  repeat' first | rfl | split | dsimp only

theorem toggle_step_ekf (s : MidiServiceState) (analog : Nat → Option ℚ) :
    (s.toggle_step analog).enabled_key_state =
      toggle_pressed_of s.config analog := by
  unfold MidiServiceState.toggle_step
  dsimp only
  split
  · rfl
  · next h => exact (not_ne_iff.mp h).symm

theorem toggle_step_enabled (s : MidiServiceState) (analog : Nat → Option ℚ) :
    (s.toggle_step analog).enabled =
      if toggle_pressed_of s.config analog = true ∧
          s.enabled_key_state = false then !s.enabled else s.enabled := by
  unfold MidiServiceState.toggle_step
  dsimp only
  cases htp : toggle_pressed_of s.config analog <;>
    cases hekf : s.enabled_key_state <;> simp [htp, hekf]

theorem toggle_step_steady (s : MidiServiceState) (analog : Nat → Option ℚ)
    (hsteady : toggle_pressed_of s.config analog = s.enabled_key_state) :
    s.toggle_step analog = s := by
  unfold MidiServiceState.toggle_step
  dsimp only
  rw [if_neg (by simp [hsteady])]

theorem poll_config_eq (s : MidiServiceState) (analog : Nat → Option ℚ)
    (now : ℚ) (k : SinkOk) : (s.poll analog now k).state.config = s.config := by
  unfold MidiServiceState.poll
  dsimp only
  split
  · rfl
  · split
    · exact toggle_step_config s analog
    · exact toggle_step_config s analog

theorem poll_hasConnection_eq (s : MidiServiceState) (analog : Nat → Option ℚ)
    (now : ℚ) (k : SinkOk) :
    (s.poll analog now k).state.hasConnection = s.hasConnection := by
  unfold MidiServiceState.poll
  dsimp only
  split
  · rfl
  · split
    · exact toggle_step_hasConnection s analog
    · exact toggle_step_hasConnection s analog

theorem poll_toggle_fields (s : MidiServiceState) (analog : Nat → Option ℚ)
    (now : ℚ) (k : SinkOk) (hconn : s.hasConnection = true) :
    (s.poll analog now k).state.enabled_key_state =
      toggle_pressed_of s.config analog ∧
    (s.poll analog now k).state.enabled =
      (if toggle_pressed_of s.config analog = true ∧
          s.enabled_key_state = false then !s.enabled else s.enabled) := by
  unfold MidiServiceState.poll
  dsimp only
  split
  · next h => rw [hconn] at h; simp at h
  · split
    · exact ⟨toggle_step_ekf s analog, toggle_step_enabled s analog⟩
    · exact ⟨toggle_step_ekf s analog, toggle_step_enabled s analog⟩

theorem poll_steady (s : MidiServiceState) (analog : Nat → Option ℚ)
    (now : ℚ) (k : SinkOk)
    (hsteady : toggle_pressed_of s.config analog = s.enabled_key_state) :
    (s.poll analog now k).state.enabled = s.enabled ∧
    (s.poll analog now k).state.enabled_key_state = s.enabled_key_state := by
  unfold MidiServiceState.poll
  dsimp only
  split
  · exact ⟨rfl, rfl⟩
  · rw [toggle_step_steady s analog hsteady]
    split
    · exact ⟨rfl, rfl⟩
    · exact ⟨rfl, rfl⟩

theorem run_polls_steady (k : SinkOk) (b : Bool)
    (ticks : List ((Nat → Option ℚ) × ℚ)) :
    ∀ s : MidiServiceState, s.enabled_key_state = b →
      (∀ t ∈ ticks, toggle_pressed_of s.config t.1 = b) →
      (s.run_polls k ticks).state.enabled = s.enabled ∧
      (s.run_polls k ticks).state.enabled_key_state = b ∧
      (s.run_polls k ticks).state.config = s.config := by
  induction ticks with
  | nil => intro s hb _; exact ⟨rfl, hb, rfl⟩
  | cons t rest ih =>
    intro s hb hticks
    have hsteady : toggle_pressed_of s.config t.1 = s.enabled_key_state := by
      rw [hb]; exact hticks t (List.mem_cons_self t rest)
    have hstep := poll_steady s t.1 t.2 k hsteady
    have hcfg := poll_config_eq s t.1 t.2 k
    unfold MidiServiceState.run_polls
    dsimp only
    split
    · have hrest := ih (s.poll t.1 t.2 k).state (hstep.2.trans hb)
        (by intro u hu; rw [hcfg]; exact hticks u (List.mem_cons_of_mem t hu))
      exact ⟨hrest.1.trans hstep.1, hrest.2.1, hrest.2.2.trans hcfg⟩
    · exact ⟨hstep.1, hstep.2.trans hb, hcfg⟩

/-- C5: the enable flag of `poll` flips exactly on rising edges of the
aggregate toggle-key press state: after one tick the stored
`enabled_key_state` equals the snapshot's `toggle_pressed`, `enabled` is
negated iff `toggle_pressed` is true while the stored state was false,
and across any sequence of ticks whose `toggle_pressed` stays equal to
the stored state (e.g. a toggle key held down, or kept released),
`enabled` never flips. -/
theorem C5_enable_toggle_edge_triggered (s : MidiServiceState)
    (analog : Nat → Option ℚ) (now : ℚ) (k : SinkOk)
    (ticks : List ((Nat → Option ℚ) × ℚ)) (b : Bool)
    (hconn : s.hasConnection = true)
    (hb : s.enabled_key_state = b)
    (hticks : ∀ t ∈ ticks, toggle_pressed_of s.config t.1 = b) :
    (s.poll analog now k).state.enabled_key_state =
      toggle_pressed_of s.config analog ∧
    (s.poll analog now k).state.enabled =
      (if toggle_pressed_of s.config analog = true ∧
          s.enabled_key_state = false then !s.enabled else s.enabled) ∧
    (s.run_polls k ticks).state.enabled = s.enabled ∧
    (s.run_polls k ticks).state.enabled_key_state =
      s.enabled_key_state := by
  have h1 := poll_toggle_fields s analog now k hconn
  have h2 := run_polls_steady k b ticks s hb hticks
  exact ⟨h1.1, h1.2, h2.1, h2.2.1.trans hb.symm⟩

/-! ### Claims C6 and C10: reconfiguration -/

theorem cleanup_notes_ok (cfg : Config) (l : List (Nat × KeyState)) :
    (cleanup_notes cfg (fun _ => true) l).2 = true := by
  induction l with
  | nil => rfl
  | cons p rest ih =>
    unfold cleanup_notes
    repeat' first | split | dsimp only
    all_goals simp_all

theorem cleanup_notes_mem (cfg : Config) (l : List (Nat × KeyState))
    (p : Nat × KeyState) (hp : p ∈ l) (hpr : p.2.pressed = true)
    (kc : KeyConfig) (hkc : lookup_config cfg.key_configs p.1 = some kc)
    (eff : Nat) (heff : p.2.get_effective_note kc.note_id = some eff) :
    MidiMsg.noteOff eff p.2.velocity kc.channel ∈
      (cleanup_notes cfg (fun _ => true) l).1 := by
  induction l with
  | nil => exact absurd hp (List.not_mem_nil p)
  | cons q rest ih =>
    rcases List.mem_cons.mp hp with rfl | hmem
    · unfold cleanup_notes
      dsimp only
      rw [hpr]
      simp only [if_true, hkc, heff]
      exact List.mem_cons_self _ _
    · unfold cleanup_notes
      dsimp only
      repeat' first | split | dsimp only
      all_goals first
        | exact ih hmem
        | exact List.mem_cons_of_mem _ (ih hmem)
        | simp_all

/-- C6: a successful `set_config` on a connected service whose pressed
keys all have an old config entry and a valid effective note emits a
note-off with the old effective note, old channel and last velocity for
every pressed key, replaces the configuration, and leaves the key-state
map with exactly the new configuration's key set, every entry fresh:
unpressed, velocity 0, depth 0, no anchor. -/
theorem C6_set_config_cleanup_and_reset (s : MidiServiceState)
    (newCfg : Config)
    (hconn : s.hasConnection = true)
    (hinv : ∀ p ∈ s.key_states, p.2.pressed = true →
      ∃ kc, lookup_config s.config.key_configs p.1 = some kc ∧
        ∃ eff, p.2.get_effective_note kc.note_id = some eff) :
    (s.set_config newCfg (fun _ => true)).2.2 = true ∧
    (s.set_config newCfg (fun _ => true)).1.config = newCfg ∧
    (∀ p ∈ s.key_states, p.2.pressed = true →
      ∃ kc eff, lookup_config s.config.key_configs p.1 = some kc ∧
        p.2.get_effective_note kc.note_id = some eff ∧
        MidiMsg.noteOff eff p.2.velocity kc.channel ∈
          (s.set_config newCfg (fun _ => true)).2.1) ∧
    (s.set_config newCfg (fun _ => true)).1.key_states.map Prod.fst =
      newCfg.key_configs.map Prod.fst ∧
    ∀ q ∈ (s.set_config newCfg (fun _ => true)).1.key_states,
      q.2.pressed = false ∧ q.2.velocity = 0 ∧ q.2.current_value = 0 ∧
        q.2.lower_press = none := by
  have hok := cleanup_notes_ok s.config s.key_states
  have hmsgs : (s.set_config newCfg (fun _ => true)).2.1 =
      (cleanup_notes s.config (fun _ => true) s.key_states).1 := by
    unfold MidiServiceState.set_config
    rw [hconn]
    simp only [eq_self_iff_true, if_true]
    rw [if_pos hok]
  have hstate : (s.set_config newCfg (fun _ => true)).1 =
      { s with
          config := newCfg
          key_states := newCfg.key_configs.map (fun p => (p.1, KeyState.new)) } := by
    unfold MidiServiceState.set_config
    rw [hconn]
    simp only [eq_self_iff_true, if_true]
    rw [if_pos hok]
  have hsucc : (s.set_config newCfg (fun _ => true)).2.2 = true := by
    unfold MidiServiceState.set_config
    rw [hconn]
    simp only [eq_self_iff_true, if_true]
    rw [if_pos hok]
  refine ⟨hsucc, by rw [hstate], ?_, ?_, ?_⟩
  · intro p hp hpr
    obtain ⟨kc, hkc, eff, heff⟩ := hinv p hp hpr
    refine ⟨kc, eff, hkc, heff, ?_⟩
    rw [hmsgs]
    exact cleanup_notes_mem s.config s.key_states p hp hpr kc hkc eff heff
  · rw [hstate]
    simp [List.map_map, Function.comp]
  · rw [hstate]
    intro q hq
    dsimp only at hq
    rcases List.mem_map.mp hq with ⟨p, _, rfl⟩
    exact ⟨rfl, rfl, rfl, rfl⟩

/-- C10: if a note-off send during `set_config` fails, the call reports
the failure and the swap does not occur: the live configuration and the
entire key-state map (pressed flags, velocities, anchors) are exactly
what they were before the call. -/
theorem C10_set_config_error_preserves_state (s : MidiServiceState)
    (newCfg : Config) (k : SinkOk)
    (hfail : (s.set_config newCfg k).2.2 = false) :
    (s.set_config newCfg k).1.config = s.config ∧
    (s.set_config newCfg k).1.key_states = s.key_states := by
  unfold MidiServiceState.set_config at hfail ⊢
  by_cases hc : s.hasConnection = true
  · rw [if_pos hc] at hfail ⊢
    by_cases hok : (cleanup_notes s.config k s.key_states).2 = true
    · rw [if_pos hok] at hfail
      simp at hfail
    · rw [if_neg hok] at hfail ⊢
      exact ⟨rfl, rfl⟩
  · rw [if_neg hc] at hfail
    simp at hfail

/-- A one-key configuration used as a concrete service fixture. -/
def cfgMapW : Config :=
  { toggle_keys := []
    modifier_keys := []
    key_configs := [(1, cfgW)] }

/-- A replacement configuration mapping a different key. -/
def newCfgW : Config :=
  { toggle_keys := []
    modifier_keys := []
    key_configs := [(2, cfgW)] }

/-- A connected service with one pressed key under `cfgMapW`. -/
def svcPressedW : MidiServiceState :=
  { hasConnection := true
    config := cfgMapW
    key_states := [(1, sHeldW)]
    enabled := true
    enabled_key_state := false }

/-- A connected, disabled service whose only toggle key is key 5. -/
def svcToggleW : MidiServiceState :=
  { hasConnection := true
    config := { toggle_keys := [5], modifier_keys := [], key_configs := [] }
    key_states := []
    enabled := false
    enabled_key_state := false }

/-- A snapshot with toggle key 5 held at depth 1/2. -/
def analogOnW : Nat → Option ℚ := fun c => if c = 5 then some (1/2) else none

/-- A snapshot with every key released. -/
def analogOffW : Nat → Option ℚ := fun _ => none

/-- Witness for C5: pressing toggle key 5 on a disabled service flips
`enabled` to true; two further all-released ticks flip nothing. -/
theorem C5_enable_toggle_edge_triggered_witness :
    (svcToggleW.poll analogOnW 0 (fun _ => true)).state.enabled_key_state =
      toggle_pressed_of svcToggleW.config analogOnW ∧
    (svcToggleW.poll analogOnW 0 (fun _ => true)).state.enabled =
      (if toggle_pressed_of svcToggleW.config analogOnW = true ∧
          svcToggleW.enabled_key_state = false then !svcToggleW.enabled
        else svcToggleW.enabled) ∧
    (svcToggleW.run_polls (fun _ => true)
      [(analogOffW, 1), (analogOffW, 2)]).state.enabled =
      svcToggleW.enabled ∧
    (svcToggleW.run_polls (fun _ => true)
      [(analogOffW, 1), (analogOffW, 2)]).state.enabled_key_state =
      svcToggleW.enabled_key_state :=
  C5_enable_toggle_edge_triggered svcToggleW analogOnW 0 (fun _ => true)
    [(analogOffW, 1), (analogOffW, 2)] false rfl rfl
    (by intro t ht; fin_cases ht <;> rfl)

/-- Witness for C6: replacing the one-pressed-key configuration emits
the note-off for note 60 and installs a fresh state for the new key. -/
theorem C6_set_config_cleanup_and_reset_witness :
    (svcPressedW.set_config newCfgW (fun _ => true)).2.2 = true ∧
    (svcPressedW.set_config newCfgW (fun _ => true)).1.config = newCfgW ∧
    (∀ p ∈ svcPressedW.key_states, p.2.pressed = true →
      ∃ kc eff, lookup_config svcPressedW.config.key_configs p.1 = some kc ∧
        p.2.get_effective_note kc.note_id = some eff ∧
        MidiMsg.noteOff eff p.2.velocity kc.channel ∈
          (svcPressedW.set_config newCfgW (fun _ => true)).2.1) ∧
    (svcPressedW.set_config newCfgW (fun _ => true)).1.key_states.map
      Prod.fst = newCfgW.key_configs.map Prod.fst ∧
    ∀ q ∈ (svcPressedW.set_config newCfgW (fun _ => true)).1.key_states,
      q.2.pressed = false ∧ q.2.velocity = 0 ∧ q.2.current_value = 0 ∧
        q.2.lower_press = none :=
  C6_set_config_cleanup_and_reset svcPressedW newCfgW rfl
    (by
      intro p hp _
      have hps := List.mem_singleton.mp hp
      subst hps
      exact ⟨cfgW, rfl, 60, rfl⟩)

/-- Witness for C10: a failing sink makes `set_config` keep the old
configuration and the pressed key state untouched. -/
theorem C10_set_config_error_preserves_state_witness :
    (svcPressedW.set_config newCfgW (fun _ => false)).1.config =
      svcPressedW.config ∧
    (svcPressedW.set_config newCfgW (fun _ => false)).1.key_states =
      svcPressedW.key_states :=
  C10_set_config_error_preserves_state svcPressedW newCfgW (fun _ => false) rfl

end WootingAnalogMidi
